import Mathlib

/-!
Verification development for the fensak rules engine (reng): the patch data
model, the two source adapters (GitHub REST-per-file and BitBucket
combined-diff), the linked-PR front-matter extractor, the unified-diff
parser, and the sandboxed rule interpreter (`runRule`).

Pure repository logic is embedded directly from the TypeScript source.
External collaborators (the forge HTTP clients, the configuration parsers
JSON/JSON5/YAML/TOML, the `microdiff` library, and the JS-Interpreter guest
semantics) are modelled as oracle parameters or, where the specification
pins their behaviour, as definitions modelled from the spec.
-/

set_option maxRecDepth 10000

/-- Operation on a line in a hunk, from `src/engine/patch_types.ts` (`LineOp`). -/
inductive LineOp
  | unknown
  | insert
  | delete
  | modified
  | untouched
deriving DecidableEq, Repr

/-- Updates to a single line in a hunk, from `src/engine/patch_types.ts` (`ILineDiff`). -/
structure ILineDiff where
  op : LineOp
  text : String
  newText : String
deriving DecidableEq, Repr

/-- Updates to a section of a file in a patch, from `src/engine/patch_types.ts` (`IHunk`). -/
structure IHunk where
  originalStart : Nat
  originalLength : Nat
  updatedStart : Nat
  updatedLength : Nat
  diffOperations : List ILineDiff
deriving DecidableEq, Repr

/-- Operation on a file in a patch, from `src/engine/patch_types.ts` (`PatchOp`). -/
inductive PatchOp
  | unknown
  | insert
  | delete
  | modified
deriving DecidableEq, Repr

/-- A parsed configuration tree: maps with string keys, ordered sequences and
scalar leaves of kind null, bool, number, string.  This is the value space of
the external JSON/JSON5/YAML/TOML parsers; JS `null` is the `jnull` leaf. -/
inductive JTree
  | jnull
  | jbool (b : Bool)
  | jnum (n : Int)
  | jstr (s : String)
  | jarr (xs : List JTree)
  | jobj (kvs : List (String × JTree))
deriving Repr

/-- Key step of a microdiff change path: a map key or a sequence index. -/
inductive PathStep
  | key (s : String)
  | idx (n : Nat)
deriving DecidableEq, Repr

/-- Kind of a microdiff change entry. -/
inductive ChangeType
  | CREATE
  | REMOVE
  | CHANGE
deriving DecidableEq, Repr

/-- A microdiff change entry: `CREATE` carries `value` only, `REMOVE` carries
`oldValue` only, `CHANGE` carries both. -/
structure Change where
  type : ChangeType
  path : List PathStep
  value : Option JTree
  oldValue : Option JTree
deriving Repr

/-- Looks up a string key in an association list of object entries. -/
def lookupKey (k : String) : List (String × JTree) → Option JTree
  | [] => none
  | kv :: rest => if kv.1 = k then some kv.2 else lookupKey k rest

/-- Whether a key is present among the entries of a parsed map. -/
def hasKey (k : String) (l : List (String × JTree)) : Bool :=
  (lookupKey k l).isSome

mutual

/-- Size of a parsed tree, used to compute adequate fuel for tree recursions. -/
def jsize : JTree → Nat
  | .jnull => 1
  | .jbool _ => 1
  | .jnum _ => 1
  | .jstr _ => 1
  | .jarr xs => 1 + jsizeList xs
  | .jobj kvs => 1 + jsizeObj kvs

/-- Size of a list of parsed trees. -/
def jsizeList : List JTree → Nat
  | [] => 0
  | x :: xs => 1 + jsize x + jsizeList xs

/-- Size of a list of parsed map entries. -/
def jsizeObj : List (String × JTree) → Nat
  | [] => 0
  | kv :: rest => 1 + jsize kv.2 + jsizeObj rest

end

/-- Whether two trees are containers of the same kind (both maps or both sequences). -/
def sameContainerKind : JTree → JTree → Bool
  | .jarr _, .jarr _ => true
  | .jobj _, .jobj _ => true
  | _, _ => false

/-- Fuelled structural equality on parsed trees; scalar equality is strict. -/
def jeqF : Nat → JTree → JTree → Bool
  | 0, _, _ => false
  | _ + 1, .jnull, .jnull => true
  | _ + 1, .jbool a, .jbool b => a == b
  | _ + 1, .jnum a, .jnum b => a == b
  | _ + 1, .jstr a, .jstr b => a == b
  | f + 1, .jarr xs, .jarr ys =>
      xs.length == ys.length && (List.zip xs ys).all (fun p2 => jeqF f p2.1 p2.2)
  | f + 1, .jobj xs, .jobj ys =>
      xs.length == ys.length &&
        xs.all (fun kv =>
          match lookupKey kv.1 ys with
          | some w => jeqF f kv.2 w
          | none => false)
  | _ + 1, _, _ => false

/-- Structural equality on parsed trees, with fuel large enough for the left tree. -/
def jeq (a b : JTree) : Bool :=
  jeqF (jsize a + jsize b + 1) a b

/-- Modelled from the spec: the structural diff of two parsed configuration
trees produced by the external `microdiff` library (spec section 4.C), which
is not part of this repository.  For keys present in both sides and comparing
unequal it recurses when both values are containers of the same kind and
emits `CHANGE` otherwise; keys only in the current side emit `CREATE`, keys
only in the previous side emit `REMOVE`; sequences are compared positionally
and a length change emits `CREATE`/`REMOVE` entries for the tail. -/
def jdiffF : Nat → List PathStep → JTree → JTree → List Change
  | 0, _, _, _ => []
  | f + 1, path, .jobj ps, .jobj cs =>
      ((ps.map (fun kv =>
          match lookupKey kv.1 cs with
          | none => [Change.mk .REMOVE (path ++ [.key kv.1]) none (some kv.2)]
          | some w =>
            if jeq kv.2 w then []
            else if sameContainerKind kv.2 w then jdiffF f (path ++ [.key kv.1]) kv.2 w
            else [Change.mk .CHANGE (path ++ [.key kv.1]) (some w) (some kv.2)])).flatten)
      ++ ((cs.map (fun kv =>
          if hasKey kv.1 ps then []
          else [Change.mk .CREATE (path ++ [.key kv.1]) (some kv.2) none])).flatten)
  | f + 1, path, .jarr xs, .jarr ys =>
      (((List.zip xs ys).enum.map (fun iv =>
          if jeq iv.2.1 iv.2.2 then []
          else if sameContainerKind iv.2.1 iv.2.2 then
            jdiffF f (path ++ [.idx iv.1]) iv.2.1 iv.2.2
          else [Change.mk .CHANGE (path ++ [.idx iv.1]) (some iv.2.2) (some iv.2.1)])).flatten)
      ++ (if xs.length < ys.length then
            (ys.drop xs.length).enum.map (fun iv =>
              Change.mk .CREATE (path ++ [.idx (xs.length + iv.1)]) (some iv.2) none)
          else [])
      ++ (if ys.length < xs.length then
            (xs.drop ys.length).enum.map (fun iv =>
              Change.mk .REMOVE (path ++ [.idx (ys.length + iv.1)]) none (some iv.2))
          else [])
  | _ + 1, path, a, b =>
      if jeq a b then [] else [Change.mk .CHANGE path (some b) (some a)]

/-- Modelled from the spec: entry point of the external `microdiff` library,
applied by both adapters to the parsed previous and current trees. -/
def jdiff (prev cur : JTree) : List Change :=
  jdiffF (jsize prev + jsize cur + 1) [] prev cur

/-- Object-level diff of a parsable data file, from `src/engine/patch_types.ts`
(`IObjectDiff`).  The TS fields `previous`/`current` hold either a parsed tree
or the JS literal `null`; JS `null` is represented by `JTree.jnull`. -/
structure IObjectDiff where
  previous : JTree
  current : JTree
  diff : List Change
deriving Repr

/-- Updates to a single file in the change set, from `src/engine/patch_types.ts`
(`IPatch`).  `objectDiff = none` embeds the TS field value `null`. -/
structure IPatch where
  path : String
  op : PatchOp
  additions : Nat
  deletions : Nat
  diff : List IHunk
  objectDiff : Option IObjectDiff
deriving Repr

/-- A PR linked to the PR under evaluation, from `src/engine/patch_types.ts`
(`ILinkedPR`). -/
structure ILinkedPR where
  repo : String
  prNum : Nat
  isMerged : Bool
  isClosed : Bool
deriving DecidableEq, Repr

/-- Metadata about the change set under evaluation, from
`src/engine/patch_types.ts` (`IChangeSetMetadata`). -/
structure IChangeSetMetadata where
  sourceBranch : String
  targetBranch : String
  linkedPRs : List ILinkedPR
deriving DecidableEq, Repr

/-- The supported structured-configuration extensions, from
`src/sourcer/from.ts` (`supportedObjectExtensions`). -/
def supportedObjectExtensions : List String :=
  ["json", "json5", "yaml", "yml", "toml"]

/-- Splits a character list at every occurrence of a separator, keeping empty
segments, with the segment accumulated so far held in reverse. -/
def splitCharAux (sep : Char) : List Char → List Char → List String
  | [], acc => [String.mk acc.reverse]
  | c :: cs, acc =>
    if c = sep then String.mk acc.reverse :: splitCharAux sep cs []
    else splitCharAux sep cs (c :: acc)

/-- Splits a string at every occurrence of a separator character, like the JS
`String.prototype.split` with a one-character separator. -/
def splitChar (sep : Char) (s : String) : List String :=
  splitCharAux sep s.data []

/-- Whether the first character list is a prefix of the second. -/
def charPrefix : List Char → List Char → Bool
  | [], _ => true
  | _ :: _, [] => false
  | p :: ps, c :: cs => p == c && charPrefix ps cs

/-- Whether `pre` is a prefix of `s`. -/
def strStartsWith (s pre : String) : Bool :=
  charPrefix pre.data s.data

/-- Drops the first `n` characters of a string. -/
def strDrop (s : String) (n : Nat) : String :=
  String.mk (s.data.drop n)

/-- Whether a character is a decimal digit. -/
def isDigitChar (c : Char) : Bool :=
  48 ≤ c.toNat && c.toNat ≤ 57

/-- Parses a nonempty all-digit string as a natural number. -/
def parseNatStr (s : String) : Option Nat :=
  if s.data ≠ [] ∧ s.data.all isDigitChar then
    some (s.data.foldl (fun a c => a * 10 + (c.toNat - 48)) 0)
  else none

/-- The file extension captured by the regex in `objectParserFromFilename`
(`src/sourcer/from.ts`): the nonempty dot-free run after the last dot of the
file name, or none when the name has no dot or ends in a dot. -/
def fileExtension (fname : String) : Option String :=
  match (splitChar '.' fname).reverse with
  | [] => none
  | [_] => none
  | last :: _ => if last = "" then none else some last

/-- Selects the configuration parser for a file name, from `src/sourcer/from.ts`
(`objectParserFromFilename`).  The concrete per-extension parsers
(JSON.parse, JSON5.parse, YAML.parse, toml.parse) are external libraries and
enter the model as the oracle `parsers`, indexed by extension. -/
def objectParserFromFilename (parsers : String → String → JTree) (fname : String) :
    Option (String → JTree) :=
  match fileExtension fname with
  | none => none
  | some ext =>
    if supportedObjectExtensions.contains ext then some (parsers ext) else none

/-- Error kinds surfaced by the patch pipeline (spec section 7). -/
inductive AdapterError
  | invalidPatch (msg : String)
  | unknownFileStatus (msg : String)
  | inconsistentForgeResponse (msg : String)
  | malformedFrontMatter (msg : String)
deriving DecidableEq, Repr

/-- Raw classification of one hunk body line before Modified coalescing. -/
inductive RawLine
  | ins (t : String)
  | del (t : String)
  | ctx (t : String)
deriving DecidableEq, Repr

/-- A hunk as read off the diff text: the four header numbers (with the
omitted-length default 1 already applied) and the classified body lines. -/
structure RawHunk where
  headO : Nat
  headOL : Nat
  headU : Nat
  headUL : Nat
  lines : List RawLine
deriving DecidableEq, Repr

/-- Modelled from the spec: parses one range token `O` or `O,L` of a hunk
header (`src/engine/patch.ts` is not in the source tree; spec section 4.B).
The length defaults to 1 when omitted. -/
def parseRangeTok (tok : String) : Option (Nat × Nat) :=
  match splitChar ',' tok with
  | [a] => (parseNatStr a).map (fun n => (n, 1))
  | [a, b] =>
    match parseNatStr a, parseNatStr b with
    | some n, some m => some (n, m)
    | _, _ => none
  | _ => none

/-- Modelled from the spec: parses a hunk header line
`@@ -O[,OL] +U[,UL] @@` (spec section 4.B), returning `(O, OL, U, UL)`. -/
def parseHunkHeader (l : String) : Option (Nat × Nat × Nat × Nat) :=
  match splitChar ' ' l with
  | "@@" :: r1 :: r2 :: "@@" :: _ =>
    if strStartsWith r1 "-" ∧ strStartsWith r2 "+" then
      match parseRangeTok (strDrop r1 1), parseRangeTok (strDrop r2 1) with
      | some (o, ol), some (u, ul) => some (o, ol, u, ul)
      | _, _ => none
    else none
  | _ => none

/-- Modelled from the spec: classification of a hunk body line (spec section
4.B).  A line beginning with `+` (not `+++`) is a candidate Insert, `-` (not
`---`) a candidate Delete, a single space or the empty line is Untouched with
the remainder as text, and `\`-lines and unrecognized prefixes are skipped. -/
def classifyLine (l : String) : Option RawLine :=
  if strStartsWith l "+++" then none
  else if strStartsWith l "+" then some (.ins (strDrop l 1))
  else if strStartsWith l "---" then none
  else if strStartsWith l "-" then some (.del (strDrop l 1))
  else if strStartsWith l " " then some (.ctx (strDrop l 1))
  else if l = "" then some (.ctx "")
  else none

/-- Modelled from the spec: scans the diff lines, opening a new hunk at every
header line and accumulating classified body lines into the current hunk;
lines before the first header are file headers and are skipped; a line
starting with `@@` that fails to parse as a header fails with `InvalidPatch`. -/
def scanLines : List String → Option RawHunk → List RawHunk →
    Except AdapterError (List RawHunk)
  | [], curr, acc => .ok (acc ++ curr.toList)
  | l :: rest, curr, acc =>
    if strStartsWith l "@@" then
      match parseHunkHeader l with
      | none => .error (.invalidPatch "malformed hunk header")
      | some (o, ol, u, ul) =>
        scanLines rest (some (RawHunk.mk o ol u ul [])) (acc ++ curr.toList)
    else
      match curr with
      | none => scanLines rest none acc
      | some h =>
        match classifyLine l with
        | none => scanLines rest (some h) acc
        | some rl =>
          scanLines rest
            (some (RawHunk.mk h.headO h.headOL h.headU h.headUL (h.lines ++ [rl]))) acc

/-- Modelled from the spec: the raw-hunk phase of `parseUnifiedDiff`
(spec section 4.B), splitting the diff text at newlines. -/
def parseUnifiedDiffRaw (txt : String) : Except AdapterError (List RawHunk) :=
  scanLines (splitChar '\n' txt) none []

/-- Modelled from the spec: the Modified-coalescing pass (spec section 4.B),
with the run of not-yet-paired Deletes carried in `pend`.  A Delete is paired
positionally with the next Insert of the immediately following Insert run;
surplus Deletes of an unequal run emit as `Delete` after the paired entries,
surplus Inserts emit as `Insert`, and pairing never crosses an Untouched
boundary. -/
def coalesceAux : List String → List RawLine → List ILineDiff
  | pend, [] => pend.map (fun d => ILineDiff.mk .delete d "")
  | pend, .del t :: rest => coalesceAux (pend ++ [t]) rest
  | pend, .ctx t :: rest =>
    pend.map (fun d => ILineDiff.mk .delete d "")
      ++ ILineDiff.mk .untouched t "" :: coalesceAux [] rest
  | pend, .ins t :: rest =>
    match pend with
    | [] => ILineDiff.mk .insert t "" :: coalesceAux [] rest
    | d :: ds => ILineDiff.mk .modified d t :: coalesceAux ds rest

/-- Modelled from the spec: coalesces the raw body lines of a hunk into the
final diff operations. -/
def coalesce (ls : List RawLine) : List ILineDiff :=
  coalesceAux [] ls

/-- Modelled from the spec: builds the final Hunk from a raw hunk.  The
lengths come from the header; a start is reported as 0 when the matching
length is 0 (spec sections 3 and 4.B). -/
def finalizeHunk (rh : RawHunk) : IHunk :=
  IHunk.mk
    (if rh.headOL = 0 then 0 else rh.headO)
    rh.headOL
    (if rh.headUL = 0 then 0 else rh.headU)
    rh.headUL
    (coalesce rh.lines)

/-- Modelled from the spec: `parseUnifiedDiff` of the missing
`src/engine/patch.ts`, per spec section 4.B. -/
def parseUnifiedDiff (txt : String) : Except AdapterError (List IHunk) :=
  (parseUnifiedDiffRaw txt).map (fun rhs => rhs.map finalizeHunk)

/-- Number of diff operations touching the original file: op in
{Delete, Modified, Untouched}. -/
def countOld (ops : List ILineDiff) : Nat :=
  (ops.filter (fun d => d.op = .delete ∨ d.op = .modified ∨ d.op = .untouched)).length

/-- Number of diff operations touching the updated file: op in
{Insert, Modified, Untouched}. -/
def countNew (ops : List ILineDiff) : Nat :=
  (ops.filter (fun d => d.op = .insert ∨ d.op = .modified ∨ d.op = .untouched)).length

/-- Number of raw body lines on the original side of a hunk (deletes and context). -/
def rawOldCount (ls : List RawLine) : Nat :=
  (ls.filter (fun l => match l with | .del _ => true | .ctx _ => true | .ins _ => false)).length

/-- Number of raw body lines on the updated side of a hunk (inserts and context). -/
def rawNewCount (ls : List RawLine) : Nat :=
  (ls.filter (fun l => match l with | .ins _ => true | .ctx _ => true | .del _ => false)).length

/-- A changed-file entry of the GitHub PR files listing, with the fields used
by `src/sourcer/from_github.ts` (`PRFile`).  The TS field `previous_filename`
may be absent (`none`) or present; the JS truthiness test `!f.previous_filename`
also treats the empty string as absent. -/
structure PRFile where
  filename : String
  previousFilename : Option String
  status : String
  additions : Nat
  deletions : Nat
  patch : Option String
deriving DecidableEq, Repr

/-- Oracles standing for the external effects of the GitHub adapter: the
configuration parsers indexed by extension and the file contents fetched at
the base and head refs by `getPRFileContent`. -/
structure GHOracles where
  parsers : String → String → JTree
  baseContents : String → String
  headContents : String → String

/-- Embeds `getObjectDiff` of `src/sourcer/from_github.ts`: selects the parser
from the file name, returns null for unsupported files and for ops other than
Insert, Delete and Modified, and otherwise parses head-only, base-only or
both and applies microdiff. -/
def getObjectDiffGH (o : GHOracles) (fname : String) (op : PatchOp) :
    Option IObjectDiff :=
  match objectParserFromFilename o.parsers fname with
  | none => none
  | some parser =>
    match op with
    | .insert => some (IObjectDiff.mk .jnull (parser (o.headContents fname)) [])
    | .delete => some (IObjectDiff.mk (parser (o.baseContents fname)) .jnull [])
    | .modified =>
      let prev := parser (o.baseContents fname)
      let cur := parser (o.headContents fname)
      some (IObjectDiff.mk prev cur (jdiff prev cur))
    | .unknown => none

/-- Builds the single patch of the non-rename cases of `getPatchesFromPRFile`,
with the per-file unified diff parsed by `parseUnifiedDiff` (`f.patch || ""`). -/
def ghSinglePatch (o : GHOracles) (f : PRFile) (op : PatchOp) :
    Except AdapterError (List IPatch) :=
  match parseUnifiedDiff (f.patch.getD "") with
  | .error e => .error e
  | .ok d =>
    .ok [IPatch.mk f.filename op f.additions f.deletions d (getObjectDiffGH o f.filename op)]

/-- Embeds `getPatchesFromPRFile` of `src/sourcer/from_github.ts`: maps the
forge file status to patch operations, special-casing renames into a Delete
at the previous path followed by an Insert at the new path (both with empty
diff and null objectDiff), and failing on a rename without previous filename
and on an unknown status. -/
def getPatchesFromPRFile (o : GHOracles) (f : PRFile) (prNum : Nat)
    (repoName : String) : Except AdapterError (List IPatch) :=
  match f.status with
  | "renamed" =>
    match f.previousFilename with
    | none =>
      .error (.inconsistentForgeResponse
        "[github] previous filename not available for a rename")
    | some prev =>
      if prev = "" then
        .error (.inconsistentForgeResponse
          "[github] previous filename not available for a rename")
      else
        .ok
          [ IPatch.mk prev .delete 0 0 [] none,
            IPatch.mk f.filename .insert 0 0 [] none ]
  | "added" => ghSinglePatch o f .insert
  | "copied" => ghSinglePatch o f .insert
  | "removed" => ghSinglePatch o f .delete
  | "changed" => ghSinglePatch o f .modified
  | "modified" => ghSinglePatch o f .modified
  | other =>
    .error (.unknownFileStatus
      ("[github] unknown status for file " ++ f.filename ++ " in PR "
        ++ toString prNum ++ " of repo " ++ repoName ++ ": " ++ other))

/-- One per-file chunk of the BitBucket combined diff, from
`src/sourcer/from_bitbucket.ts` (`IBBFileDiff`). -/
structure IBBFileDiff where
  unifiedTxt : String
  oFname : String
  tFname : String
deriving DecidableEq, Repr

/-- Oracles standing for the external effects of the BitBucket adapter: the
configuration parsers indexed by extension and the raw file text served at a
`(commit-hash, path)` pair. -/
structure BBOracles where
  parsers : String → String → JTree
  contentsAt : String → String → String

/-- Embeds `getObjectDiff` of `src/sourcer/from_bitbucket.ts`: the parser is
selected from the current-side path; unsupported files and ops other than
Insert, Delete and Modified yield null, and otherwise the contents at the
relevant commit hashes are parsed and Modified applies microdiff. -/
def getObjectDiffBB (o : BBOracles) (prevHash curHash prevFpath curFpath : String)
    (op : PatchOp) : Option IObjectDiff :=
  match objectParserFromFilename o.parsers curFpath with
  | none => none
  | some parser =>
    match op with
    | .insert => some (IObjectDiff.mk .jnull (parser (o.contentsAt curHash curFpath)) [])
    | .delete => some (IObjectDiff.mk (parser (o.contentsAt prevHash prevFpath)) .jnull [])
    | .modified =>
      let prev := parser (o.contentsAt prevHash prevFpath)
      let cur := parser (o.contentsAt curHash curFpath)
      some (IObjectDiff.mk prev cur (jdiff prev cur))
    | .unknown => none

/-- Embeds `parseBitBucketFileDiff` of `src/sourcer/from_bitbucket.ts`: a
chunk whose source and target paths are both present and differ is a rename
and emits Delete(old), Insert(new) and Modified(new) in that order; otherwise
one patch is emitted whose op is determined by which side is missing. -/
def parseBitBucketFileDiff (o : BBOracles) (srcHash destHash : String)
    (fdiff : IBBFileDiff) : Except AdapterError (List IPatch) :=
  match parseUnifiedDiff fdiff.unifiedTxt with
  | .error e => .error e
  | .ok d =>
  if fdiff.oFname ≠ "" ∧ fdiff.tFname ≠ "" ∧ fdiff.oFname ≠ fdiff.tFname then
    let objectDiff :=
      if fdiff.unifiedTxt ≠ "" then
        getObjectDiffBB o srcHash destHash fdiff.oFname fdiff.tFname .modified
      else none
    .ok
      [ IPatch.mk fdiff.oFname .delete 0 0 [] none,
        IPatch.mk fdiff.tFname .insert 0 0 [] none,
        IPatch.mk fdiff.tFname .modified 0 0 d objectDiff ]
  else
    let isAdd := fdiff.oFname = "" ∧ fdiff.tFname ≠ ""
    let isDelete := fdiff.oFname ≠ "" ∧ fdiff.tFname = ""
    let op := if isAdd then PatchOp.insert else if isDelete then PatchOp.delete
      else PatchOp.modified
    let path := if isAdd then fdiff.tFname else fdiff.oFname
    let objectDiff :=
      getObjectDiffBB o srcHash destHash fdiff.oFname fdiff.tFname op
    .ok [IPatch.mk path op 0 0 d objectDiff]

/-- One entry of the `fensak.linked` front-matter sequence, from the local
interface `IFrontMatterLinkedPR` of `extractLinkedPRs`; `repo` may be absent. -/
structure FMLinkedPR where
  repo : Option String
  prNum : Nat
deriving DecidableEq, Repr

/-- The `fensak` front-matter value; `linked` may be absent. -/
structure FensakFM where
  linked : Option (List FMLinkedPR)
deriving DecidableEq, Repr

/-- The attributes extracted from the front matter; the `fensak` key may be absent. -/
structure FMAttrs where
  fensak : Option FensakFM
deriving DecidableEq, Repr

/-- The fields of the forge PR record consulted for a linked PR. -/
structure PRInfo where
  merged : Bool
  state : String
deriving DecidableEq, Repr

/-- Resolves one `fensak.linked` entry, as the mapping inside
`extractLinkedPRs` of `src/sourcer/from_github.ts` does: an absent or empty
`repo` (JS truthiness on `l.repo`) keeps the reported repo empty and queries
the host repository; `isMerged` is the `merged` field of the queried PR and
`isClosed` compares its `state` with `"closed"`. -/
def resolveLinkedPR (lookup : String → Nat → PRInfo) (repo : String)
    (l : FMLinkedPR) : ILinkedPR :=
  let outR := match l.repo with
    | some r2 => if r2 = "" then "" else r2
    | none => ""
  let r := match l.repo with
    | some r2 => if r2 = "" then repo else r2
    | none => repo
  let pullReq := lookup r l.prNum
  ILinkedPR.mk outR l.prNum pullReq.merged (pullReq.state = "closed")

/-- Embeds `extractLinkedPRs` of `src/sourcer/from_github.ts`.  The external
front-matter library enters as the oracle `parseFM` (`none` models a
description without parsable front matter) and the forge lookup as `lookup`
(repository and PR number to the PR record).  A missing or empty description
or absent `fensak` key yields the empty sequence; `fensak` without `linked`
fails with the malformed-front-matter `TypeError`; an entry without `repo`
(or with an empty one, per JS truthiness) is resolved in the host repository
and reported with the empty string. -/
def extractLinkedPRs (lookup : String → Nat → PRInfo)
    (parseFM : String → Option FMAttrs) (owner repo : String) (prNum : Nat)
    (prDescription : Option String) : Except AdapterError (List ILinkedPR) :=
  match prDescription with
  | none => .ok []
  | some d =>
    if d = "" then .ok []
    else
      match parseFM d with
      | none => .ok []
      | some attrs =>
        match attrs.fensak with
        | none => .ok []
        | some fk =>
          match fk.linked with
          | none =>
            .error (.malformedFrontMatter
              ("[github] PR " ++ owner ++ "/" ++ repo ++ "#" ++ toString prNum
                ++ " has front matter, but it is not in the expected format"))
          | some ls => .ok (ls.map (resolveLinkedPR lookup repo))

/-- Max time in milliseconds for the user defined rule to run, from
`src/engine/interpreter.ts` (`maxUDRRuntime`). -/
def maxUDRRuntime : Nat := 5000

/-- Number of interpreter steps between host yields, from
`src/engine/interpreter.ts` (`maxStepIterationsBeforeSleep`). -/
def maxStepIterationsBeforeSleep : Nat := 100

/-- Duration in milliseconds of one host yield, from
`src/engine/interpreter.ts` (`sleepBetweenStepIterations`). -/
def sleepBetweenStepIterations : Nat := 100

/-- Log levels of the rule interpreter, from `src/engine/interpreter.ts`
(`RuleLogLevel`). -/
inductive RuleLogLevel
  | debug
  | info
  | warn
  | error
deriving DecidableEq, Repr

/-- Logging modes of the rule interpreter, from `src/engine/interpreter.ts`
(`RuleLogMode`): drop all messages, forward to the native console, or capture
into memory. -/
inductive RuleLogMode
  | drop
  | console
  | capture
deriving DecidableEq, Repr

/-- A captured log entry, from `src/engine/interpreter.ts` (`IRuleLogEntry`). -/
structure IRuleLogEntry where
  level : RuleLogLevel
  msg : String
deriving DecidableEq, Repr

/-- The result of running a rule, from `src/engine/interpreter.ts`
(`IRuleResult`). -/
structure IRuleResult where
  approve : Bool
  logs : List IRuleLogEntry
deriving DecidableEq, Repr

/-- The five console methods bound into the guest scope by `runRule`. -/
inductive ConsoleMethod
  | log
  | info
  | debug
  | warn
  | error
deriving DecidableEq, Repr

/-- The log level each console method records in Capture mode, from the five
`createNativeFunction` bindings in `runRule`: `log` and `info` record Info,
`debug` Debug, `warn` Warn and `error` Error. -/
def consoleLevel : ConsoleMethod → RuleLogLevel
  | .log => .info
  | .info => .info
  | .debug => .debug
  | .warn => .warn
  | .error => .error

/-- A guest value of the sandboxed interpreter, as far as the harness
inspects one: booleans, numbers, strings, undefined and null. -/
inductive JSValue
  | vBool (b : Bool)
  | vNum (n : Int)
  | vStr (s : String)
  | vUndefined
  | vNull
deriving DecidableEq, Repr

/-- JS template-literal coercion of a guest value to a string. -/
def jsToString : JSValue → String
  | .vBool true => "true"
  | .vBool false => "false"
  | .vNum n => toString n
  | .vStr s => s
  | .vUndefined => "undefined"
  | .vNull => "null"

/-- Embeds `objsToString` of `src/engine/interpreter.ts`: the variadic
console arguments are coerced to strings and joined by single spaces. -/
def objsToString (objs : List JSValue) : String :=
  String.intercalate " " (objs.map jsToString)

/-- JSON serialization of the boolean the harness passes to `setOutput`
(`setOutput(JSON.stringify(out))`). -/
def jsonStringifyBool (b : Bool) : String :=
  if b then "true" else "false"

/-- JSON parsing of the boolean payload inside the `setOutput` bridge
(`result.approve = JSON.parse(jsonOut)`). -/
def jsonParseBool (s : String) : Bool :=
  s = "true"

/-- An observable action of the guest rule body.  The guest dialect is
executed by the external JS-Interpreter library; the model keeps the actions
the harness and bridge of `runRule` can observe: a call to a console method,
the evaluation of a top-level identifier, returning a value from `main`, and
an unbounded loop. -/
inductive GuestStmt
  | consoleCall (m : ConsoleMethod) (args : List JSValue)
  | refName (x : String)
  | ret (v : JSValue)
  | loopForever
deriving DecidableEq, Repr

/-- A rule program: the declared parameters of its `main` function and the
body actions `main` performs when the harness invokes it.  The harness always
invokes `main(inp.patches, inp.metadata)` with two arguments; per ECMAScript
call semantics every declared parameter is bound in the function scope
regardless of the argument count, and surplus arguments are ignored. -/
structure GuestProgram where
  params : List String
  body : List GuestStmt
deriving DecidableEq, Repr

/-- The names bound into the guest top-level scope by the init callback of
`runRule`: the `console` object, `getInput` and `setOutput`. -/
def hostBridgeNames : List String :=
  ["console", "getInput", "setOutput"]

/-- Every name resolvable from the guest rule body: the three host-bridge
bindings, the `main` function the rule program itself declares, and the
parameters of `main`.  Nothing else — no network, filesystem, environment,
process, timer or randomness primitive — is in scope. -/
def guestScope (p : GuestProgram) : List String :=
  hostBridgeNames ++ ["main"] ++ p.params

/-- State of the interpreter across micro-steps: executing the body of
`main`, holding the value `main` returned with the harness checks pending, or
done after `setOutput`. -/
inductive IState
  | runMain (rest : List GuestStmt)
  | returned (v : JSValue)
  | harnessDone
deriving DecidableEq, Repr

/-- An effect a micro-step performs through the host bridge: a console call
or the `setOutput` call with its JSON payload. -/
inductive StepEffect
  | logCall (m : ConsoleMethod) (args : List JSValue)
  | setOutput (s : String)
deriving DecidableEq, Repr

/-- Result of one `interpreter.step()`: another step with an optional bridge
effect, normal completion, or a guest throw with its message. -/
inductive StepResult
  | more (s : IState) (eff : Option StepEffect)
  | done
  | threw (msg : String)
deriving DecidableEq, Repr

/-- One micro-step of the sandboxed interpreter running the harness code of
`runRule`.  Referencing a name outside the guest scope throws the JS
`ReferenceError` message `X is not defined`; a `main` body that falls off the
end returns `undefined`; the harness checks the returned value with
`typeof out !== "boolean"` and throws the non-boolean message otherwise, then
calls `setOutput(JSON.stringify(out))` and finishes. -/
def stepGuest (p : GuestProgram) : IState → StepResult
  | .runMain [] => .more (.returned .vUndefined) none
  | .runMain (.consoleCall m args :: rest) => .more (.runMain rest) (some (.logCall m args))
  | .runMain (.refName x :: rest) =>
      if (guestScope p).contains x then .more (.runMain rest) none
      else .threw (x ++ " is not defined")
  | .runMain (.ret v :: _) => .more (.returned v) none
  | .runMain (.loopForever :: rest) => .more (.runMain (.loopForever :: rest)) none
  | .returned v =>
      match v with
      | .vBool b => .more .harnessDone (some (.setOutput (jsonStringifyBool b)))
      | _ => .threw ("main function must return boolean (returned " ++ jsToString v ++ ")")
  | .harnessDone => .done

/-- Applies a bridge effect to the evaluation record, as the native functions
installed by `runRule` do: console calls append a captured entry only in
Capture mode (Drop ignores them, Console forwards them to the host console
without touching the record), and `setOutput` parses its payload into
`approve`. -/
def applyEffect (logMode : RuleLogMode) (res : IRuleResult) : StepEffect → IRuleResult
  | .logCall m args =>
    match logMode with
    | .capture =>
      IRuleResult.mk res.approve (res.logs ++ [IRuleLogEntry.mk (consoleLevel m) (objsToString args)])
    | _ => res
  | .setOutput s => IRuleResult.mk (jsonParseBool s) res.logs

/-- Applies the optional effect of a step. -/
def applyEffectOpt (logMode : RuleLogMode) (res : IRuleResult) : Option StepEffect → IRuleResult
  | none => res
  | some e => applyEffect logMode res e

/-- How a `runRule` invocation settles: rejection with a guest-originated
error, rejection by the watchdog timeout, or fulfilment with the evaluation
record.  Failing paths carry no record, so logs captured before a failure are
discarded. -/
inductive RunErr
  | ruleExecutionFailure (msg : String)
  | timeout (msg : String)
deriving DecidableEq, Repr

/-- A settled `runRule` invocation: the outcome and the model wall-clock time
in milliseconds at which it settled.  Model time advances only at the host
yields (each sleep lasts `sleepBetweenStepIterations` ms; interpreter steps
are instantaneous), which are the only suspension points at which the
watchdog timer can fire. -/
structure RunOutcome where
  outcome : Except RunErr IRuleResult
  settleTime : Nat
deriving Repr

/-- The fuelled step loop of `runRule` (`while (interpreter.step()) ...`).
Each recursion performs one `interpreter.step()`: completion resolves with
the record, a guest throw rejects with it, and otherwise the iteration
counter is incremented and, past `maxStepIterationsBeforeSleep`, the loop
sleeps `sleepBetweenStepIterations` ms and resets the counter.  The watchdog
timer scheduled at `maxUDRRuntime` can fire only during such a sleep; when
the wake time reaches it, the timer rejects with the timeout error, cancels
the pending sleep (so the loop never resumes) and leaves the `rejected` flag
for the short-circuit check.  `none` means the fuel was exhausted before the
invocation settled. -/
def runLoop (p : GuestProgram) (logMode : RuleLogMode) :
    Nat → IState → Nat → Nat → IRuleResult → Option RunOutcome
  | 0, _, _, _, _ => none
  | fuel + 1, ist, iterations, now, res =>
    match stepGuest p ist with
    | .done => some (RunOutcome.mk (.ok res) now)
    | .threw msg => some (RunOutcome.mk (.error (.ruleExecutionFailure msg)) now)
    | .more ist2 eff =>
      let res2 := applyEffectOpt logMode res eff
      let iter2 := iterations + 1
      if iter2 > maxStepIterationsBeforeSleep then
        let now2 := now + sleepBetweenStepIterations
        if maxUDRRuntime ≤ now2 then
          some (RunOutcome.mk (.error (.timeout "user defined rule timed out")) now2)
        else
          runLoop p logMode fuel ist2 0 now2 res2
      else
        runLoop p logMode fuel ist2 iter2 now res2

/-- Embeds `runRule` of `src/engine/interpreter.ts`: the evaluation record
starts as `{approve: false, logs: []}`, the interpreter starts in the body of
`main` (the harness prelude reads `getInput()` and invokes
`main(inp.patches, inp.metadata)`), and the step loop runs with the iteration
counter and the model clock at zero. -/
def runRule (p : GuestProgram) (logMode : RuleLogMode) (fuel : Nat) : Option RunOutcome :=
  runLoop p logMode fuel (.runMain p.body) 0 0 (IRuleResult.mk false [])

/-- A guest body statement is benign when executing it neither throws nor
leaves the body: a console call, or a reference to a name that is in the
guest scope. -/
def benignStmt (p : GuestProgram) : GuestStmt → Prop
  | .consoleCall _ _ => True
  | .refName x => (guestScope p).contains x = true
  | .ret _ => False
  | .loopForever => False

/-- The evaluation record after one benign statement: console calls go
through the bridge effect, references leave the record unchanged. -/
def stmtEffectRes (logMode : RuleLogMode) (res : IRuleResult) : GuestStmt → IRuleResult
  | .consoleCall m args => applyEffect logMode res (.logCall m args)
  | _ => res

/-- The evaluation record after a list of benign statements. -/
def execEffects (logMode : RuleLogMode) (res : IRuleResult) (pre : List GuestStmt) :
    IRuleResult :=
  pre.foldl (stmtEffectRes logMode) res

/-- The body statement of a guest console call. -/
def consoleStmt (c : ConsoleMethod × List JSValue) : GuestStmt :=
  .consoleCall c.1 c.2

/-- The log entry a captured console call produces: the level matching the
method and the space-joined string coercion of the arguments. -/
def capturedEntry (c : ConsoleMethod × List JSValue) : IRuleLogEntry :=
  IRuleLogEntry.mk (consoleLevel c.1) (objsToString c.2)


/-- Trivial oracles for concrete adapter witnesses. -/
def wGHOracles : GHOracles :=
  GHOracles.mk (fun _ _ => .jnull) (fun _ => "") (fun _ => "")

/-- Concrete PR lookup oracle for the C8 witness: every PR is merged and closed. -/
def wLookup : String → Nat → PRInfo :=
  fun _ _ => PRInfo.mk true "closed"

/-- Concrete front-matter oracle for the C8 witness: the description
`linked` parses to front matter with one repo-less linked entry, `bad`
parses to front matter with `fensak` but no `linked` key, and anything else
has no parsable front matter. -/
def wParseFM : String → Option FMAttrs := fun d =>
  if d = "linked" then some (FMAttrs.mk (some (FensakFM.mk (some [FMLinkedPR.mk none 41]))))
  else if d = "bad" then some (FMAttrs.mk (some (FensakFM.mk none)))
  else none

/-- Shape of a non-null object diff at the patch level: the file path selects
a supported parser and the fields follow the op-specific rules of
`getObjectDiff`, with Modified carrying the microdiff of its two sides. -/
def objectDiffWellFormed (parsers : String → String → JTree)
    (path : String) (op : PatchOp) (od : IObjectDiff)
    (baseTxt headTxt : String) : Prop :=
  ∃ ext, fileExtension path = some ext ∧
    supportedObjectExtensions.contains ext = true ∧
  ∃ parser, objectParserFromFilename parsers path = some parser ∧
    ((op = .insert ∧ od.previous = .jnull ∧ od.current = parser headTxt ∧ od.diff = []) ∨
     (op = .delete ∧ od.previous = parser baseTxt ∧ od.current = .jnull ∧ od.diff = []) ∨
     (op = .modified ∧ od.previous = parser baseTxt ∧ od.current = parser headTxt ∧
        od.diff = jdiff od.previous od.current))

/-- Parser oracle for the C6 witness: base text `b` parses to a map with
`k = true`, anything else to `k = false`. -/
def wC6Parsers : String → String → JTree := fun _ s =>
  if s = "b" then .jobj [("k", .jbool true)] else .jobj [("k", .jbool false)]

/-- GitHub oracles for the C6 witness. -/
def wC6GH : GHOracles := GHOracles.mk wC6Parsers (fun _ => "b") (fun _ => "h")

/-- BitBucket oracles for the C6 witness. -/
def wC6BB : BBOracles := BBOracles.mk wC6Parsers (fun _ _ => "h")

/-- The object diff the GitHub adapter produces for the modified
`conf.json` of the C6 witness. -/
def wC6OD : IObjectDiff :=
  IObjectDiff.mk (.jobj [("k", .jbool true)]) (.jobj [("k", .jbool false)])
    (jdiff (.jobj [("k", .jbool true)]) (.jobj [("k", .jbool false)]))

/-- The object diff the BitBucket adapter produces for the inserted
`conf.json` of the C6 witness. -/
def wC6ODIns : IObjectDiff :=
  IObjectDiff.mk .jnull (.jobj [("k", .jbool false)]) []

/-- Containment of a substring, used to state the message guarantees. -/
def strContains (s sub : String) : Prop :=
  ∃ s1 s2, s = s1 ++ sub ++ s2

/-- The bridge effect of one benign statement, as `stepGuest` emits it. -/
def stmtStepEffect : GuestStmt → Option StepEffect
  | .consoleCall m args => some (.logCall m args)
  | _ => none

lemma countOld_append (a b : List ILineDiff) :
    countOld (a ++ b) = countOld a + countOld b := by
  simp [countOld, List.filter_append]

lemma countNew_append (a b : List ILineDiff) :
    countNew (a ++ b) = countNew a + countNew b := by
  simp [countNew, List.filter_append]

lemma countOld_cons_untouched (t : String) (l : List ILineDiff) :
    countOld (ILineDiff.mk .untouched t "" :: l) = 1 + countOld l := by
  simp [countOld, List.filter_cons]
  omega

lemma countOld_cons_insert (t : String) (l : List ILineDiff) :
    countOld (ILineDiff.mk .insert t "" :: l) = countOld l := by
  simp [countOld, List.filter_cons]

lemma countOld_cons_modified (t u : String) (l : List ILineDiff) :
    countOld (ILineDiff.mk .modified t u :: l) = 1 + countOld l := by
  simp [countOld, List.filter_cons]
  omega

lemma countNew_cons_untouched (t : String) (l : List ILineDiff) :
    countNew (ILineDiff.mk .untouched t "" :: l) = 1 + countNew l := by
  simp [countNew, List.filter_cons]
  omega

lemma countNew_cons_insert (t : String) (l : List ILineDiff) :
    countNew (ILineDiff.mk .insert t "" :: l) = 1 + countNew l := by
  simp [countNew, List.filter_cons]
  omega

lemma countNew_cons_modified (t u : String) (l : List ILineDiff) :
    countNew (ILineDiff.mk .modified t u :: l) = 1 + countNew l := by
  simp [countNew, List.filter_cons]
  omega

lemma countOld_delMap (pend : List String) :
    countOld (pend.map (fun d => ILineDiff.mk .delete d "")) = pend.length := by
  induction pend with
  | nil => rfl
  | cons d ds ih => simpa [countOld, List.filter_cons] using ih

lemma countNew_delMap (pend : List String) :
    countNew (pend.map (fun d => ILineDiff.mk .delete d "")) = 0 := by
  induction pend with
  | nil => rfl
  | cons d ds ih => simpa [countNew, List.filter_cons] using ih

lemma rawOldCount_cons_del (t : String) (ls : List RawLine) :
    rawOldCount (.del t :: ls) = 1 + rawOldCount ls := by
  simp [rawOldCount, List.filter_cons]
  omega

lemma rawOldCount_cons_ctx (t : String) (ls : List RawLine) :
    rawOldCount (.ctx t :: ls) = 1 + rawOldCount ls := by
  simp [rawOldCount, List.filter_cons]
  omega

lemma rawOldCount_cons_ins (t : String) (ls : List RawLine) :
    rawOldCount (.ins t :: ls) = rawOldCount ls := by
  simp [rawOldCount, List.filter_cons]

lemma rawNewCount_cons_del (t : String) (ls : List RawLine) :
    rawNewCount (.del t :: ls) = rawNewCount ls := by
  simp [rawNewCount, List.filter_cons]

lemma rawNewCount_cons_ctx (t : String) (ls : List RawLine) :
    rawNewCount (.ctx t :: ls) = 1 + rawNewCount ls := by
  simp [rawNewCount, List.filter_cons]
  omega

lemma rawNewCount_cons_ins (t : String) (ls : List RawLine) :
    rawNewCount (.ins t :: ls) = 1 + rawNewCount ls := by
  simp [rawNewCount, List.filter_cons]
  omega

lemma coalesceAux_countOld :
    ∀ (ls : List RawLine) (pend : List String),
      countOld (coalesceAux pend ls) = pend.length + rawOldCount ls := by
  intro ls
  induction ls with
  | nil =>
    intro pend
    simp [coalesceAux, rawOldCount, countOld_delMap]
  | cons hd tl ih =>
    intro pend
    cases hd with
    | del t =>
      rw [show coalesceAux pend (.del t :: tl) = coalesceAux (pend ++ [t]) tl from rfl,
        ih (pend ++ [t]), rawOldCount_cons_del]
      simp
      omega
    | ctx t =>
      rw [show coalesceAux pend (.ctx t :: tl)
          = pend.map (fun d => ILineDiff.mk .delete d "")
            ++ ILineDiff.mk .untouched t "" :: coalesceAux [] tl from rfl,
        countOld_append, countOld_delMap, countOld_cons_untouched, ih [],
        rawOldCount_cons_ctx]
      simp
    | ins t =>
      cases pend with
      | nil =>
        rw [show coalesceAux [] (.ins t :: tl) = ILineDiff.mk .insert t "" :: coalesceAux [] tl from rfl,
          countOld_cons_insert, ih [], rawOldCount_cons_ins]
      | cons d ds =>
        rw [show coalesceAux (d :: ds) (.ins t :: tl)
            = ILineDiff.mk .modified d t :: coalesceAux ds tl from rfl,
          countOld_cons_modified, ih ds, rawOldCount_cons_ins]
        simp
        omega

lemma coalesceAux_countNew :
    ∀ (ls : List RawLine) (pend : List String),
      countNew (coalesceAux pend ls) = rawNewCount ls := by
  intro ls
  induction ls with
  | nil =>
    intro pend
    simp [coalesceAux, rawNewCount, countNew_delMap]
  | cons hd tl ih =>
    intro pend
    cases hd with
    | del t =>
      rw [show coalesceAux pend (.del t :: tl) = coalesceAux (pend ++ [t]) tl from rfl,
        ih (pend ++ [t]), rawNewCount_cons_del]
    | ctx t =>
      rw [show coalesceAux pend (.ctx t :: tl)
          = pend.map (fun d => ILineDiff.mk .delete d "")
            ++ ILineDiff.mk .untouched t "" :: coalesceAux [] tl from rfl,
        countNew_append, countNew_delMap, countNew_cons_untouched, ih [],
        rawNewCount_cons_ctx]
      omega
    | ins t =>
      cases pend with
      | nil =>
        rw [show coalesceAux [] (.ins t :: tl) = ILineDiff.mk .insert t "" :: coalesceAux [] tl from rfl,
          countNew_cons_insert, ih [], rawNewCount_cons_ins]
      | cons d ds =>
        rw [show coalesceAux (d :: ds) (.ins t :: tl)
            = ILineDiff.mk .modified d t :: coalesceAux ds tl from rfl,
          countNew_cons_modified, ih ds, rawNewCount_cons_ins]

lemma coalesce_countOld (ls : List RawLine) :
    countOld (coalesce ls) = rawOldCount ls := by
  simpa [coalesce] using coalesceAux_countOld ls []

lemma coalesce_countNew (ls : List RawLine) :
    countNew (coalesce ls) = rawNewCount ls := by
  simpa [coalesce] using coalesceAux_countNew ls []

/-- C7 (amended): for every hunk read by the unified-diff parser from a diff
whose body line counts agree with the header lengths — as in every
well-formed unified diff — the number of diff operations whose op is Delete,
Modified or Untouched equals `originalLength`, and the number whose op is
Insert, Modified or Untouched equals `updatedLength`.  The amendment is
forced because the parser takes the lengths from the `@@` header, so a text
whose header disagrees with its body parses into a hunk violating the
claimed arithmetic. -/
theorem parsedHunkArithmetic (txt : String) (rhs : List RawHunk) (rh : RawHunk)
    (hparse : parseUnifiedDiffRaw txt = .ok rhs) (hmem : rh ∈ rhs)
    (hol : rawOldCount rh.lines = rh.headOL)
    (hul : rawNewCount rh.lines = rh.headUL) :
    parseUnifiedDiff txt = .ok (rhs.map finalizeHunk) ∧
    finalizeHunk rh ∈ rhs.map finalizeHunk ∧
    countOld (finalizeHunk rh).diffOperations = (finalizeHunk rh).originalLength ∧
    countNew (finalizeHunk rh).diffOperations = (finalizeHunk rh).updatedLength := by
  refine ⟨?_, List.mem_map_of_mem _ hmem, ?_, ?_⟩
  · simp [parseUnifiedDiff, hparse, Except.map]
  · simp [finalizeHunk, coalesce_countOld, hol]
  · simp [finalizeHunk, coalesce_countNew, hul]

/-- C7 witness: the two-line markdown append of the BitBucket adapter test
(3 context lines, 2 inserted lines) satisfies the hunk arithmetic. -/
theorem parsedHunkArithmeticWitness :
    parseUnifiedDiff "@@ -1,3 +1,5 @@\n a\n b\n c\n+d\n+e"
      = .ok ([RawHunk.mk 1 3 1 5 [.ctx "a", .ctx "b", .ctx "c", .ins "d", .ins "e"]].map finalizeHunk) ∧
    finalizeHunk (RawHunk.mk 1 3 1 5 [.ctx "a", .ctx "b", .ctx "c", .ins "d", .ins "e"])
      ∈ ([RawHunk.mk 1 3 1 5 [.ctx "a", .ctx "b", .ctx "c", .ins "d", .ins "e"]].map finalizeHunk) ∧
    countOld (finalizeHunk (RawHunk.mk 1 3 1 5 [.ctx "a", .ctx "b", .ctx "c", .ins "d", .ins "e"])).diffOperations
      = (finalizeHunk (RawHunk.mk 1 3 1 5 [.ctx "a", .ctx "b", .ctx "c", .ins "d", .ins "e"])).originalLength ∧
    countNew (finalizeHunk (RawHunk.mk 1 3 1 5 [.ctx "a", .ctx "b", .ctx "c", .ins "d", .ins "e"])).diffOperations
      = (finalizeHunk (RawHunk.mk 1 3 1 5 [.ctx "a", .ctx "b", .ctx "c", .ins "d", .ins "e"])).updatedLength :=
  parsedHunkArithmetic _ _ _ rfl (by decide) (by decide) (by decide)

/-- C7 counterexample: a diff text whose hunk header announces five original
lines over a body with a single context line parses into a hunk whose
original-side operation count differs from `originalLength`, so the claimed
arithmetic does not hold for every parsed hunk. -/
theorem parsedHunkArithmeticCounterexample :
    ∃ h, parseUnifiedDiff "@@ -1,5 +1,5 @@\n x" = .ok [h] ∧
      countOld h.diffOperations ≠ h.originalLength := by
  refine ⟨IHunk.mk 1 5 1 5 [ILineDiff.mk .untouched "x" ""], ?_, by decide⟩
  rfl

lemma except_ok_bind {ε α β : Type} (a : α) (f : α → Except ε β) :
    (Except.ok (ε := ε) a >>= f) = f a := rfl

/-- C5: the GitHub REST-per-file adapter maps file status added/copied to one
Insert patch, removed to one Delete patch, changed/modified to one Modified
patch, and renamed to exactly two patches — a Delete at the previous path
then an Insert at the new path, both with empty diff and null objectDiff; a
renamed entry without usable previous filename fails with the
inconsistent-forge-response error, and any other status fails with the
unknown-file-status error. -/
theorem githubFileStatusMapping (o : GHOracles) (f : PRFile) (prNum : Nat)
    (repoName : String) (d : List IHunk)
    (hd : parseUnifiedDiff (f.patch.getD "") = .ok d) :
    ((f.status = "added" ∨ f.status = "copied") →
      getPatchesFromPRFile o f prNum repoName
        = .ok [IPatch.mk f.filename .insert f.additions f.deletions d
            (getObjectDiffGH o f.filename .insert)]) ∧
    (f.status = "removed" →
      getPatchesFromPRFile o f prNum repoName
        = .ok [IPatch.mk f.filename .delete f.additions f.deletions d
            (getObjectDiffGH o f.filename .delete)]) ∧
    ((f.status = "changed" ∨ f.status = "modified") →
      getPatchesFromPRFile o f prNum repoName
        = .ok [IPatch.mk f.filename .modified f.additions f.deletions d
            (getObjectDiffGH o f.filename .modified)]) ∧
    (f.status = "renamed" → ∀ prev, f.previousFilename = some prev → prev ≠ "" →
      getPatchesFromPRFile o f prNum repoName
        = .ok [ IPatch.mk prev .delete 0 0 [] none,
                IPatch.mk f.filename .insert 0 0 [] none ]) ∧
    (f.status = "renamed" →
      (f.previousFilename = none ∨ f.previousFilename = some "") →
      getPatchesFromPRFile o f prNum repoName
        = .error (.inconsistentForgeResponse
            "[github] previous filename not available for a rename")) ∧
    (f.status ≠ "renamed" → f.status ≠ "added" → f.status ≠ "copied" →
      f.status ≠ "removed" → f.status ≠ "changed" → f.status ≠ "modified" →
      getPatchesFromPRFile o f prNum repoName
        = .error (.unknownFileStatus
            ("[github] unknown status for file " ++ f.filename ++ " in PR "
              ++ toString prNum ++ " of repo " ++ repoName ++ ": " ++ f.status))) := by
  refine ⟨?_, ?_, ?_, ?_, ?_, ?_⟩
  · rintro (h | h) <;> simp [getPatchesFromPRFile, h, ghSinglePatch, hd]
  · intro h
    simp [getPatchesFromPRFile, h, ghSinglePatch, hd]
  · rintro (h | h) <;> simp [getPatchesFromPRFile, h, ghSinglePatch, hd]
  · intro h prev hprev hne
    simp [getPatchesFromPRFile, h, hprev, hne]
  · rintro h (hprev | hprev) <;> simp [getPatchesFromPRFile, h, hprev]
  · intro h1 h2 h3 h4 h5 h6
    simp [getPatchesFromPRFile, h1, h2, h3, h4, h5, h6]


/-- C5 witness: concrete instances of the rename, added and unknown-status
branches with trivial oracles. -/
theorem githubFileStatusMappingWitness :
    (getPatchesFromPRFile wGHOracles
        (PRFile.mk "b.txt" (some "a.txt") "renamed" 0 0 none) 7 "o/r"
      = .ok [ IPatch.mk "a.txt" .delete 0 0 [] none,
              IPatch.mk "b.txt" .insert 0 0 [] none ]) ∧
    (getPatchesFromPRFile wGHOracles
        (PRFile.mk "b.txt" none "renamed" 0 0 none) 7 "o/r"
      = .error (.inconsistentForgeResponse
          "[github] previous filename not available for a rename")) ∧
    (getPatchesFromPRFile wGHOracles
        (PRFile.mk "c.txt" none "surprise" 0 0 none) 7 "o/r"
      = .error (.unknownFileStatus
          "[github] unknown status for file c.txt in PR 7 of repo o/r: surprise")) := by
  refine ⟨?_, ?_, ?_⟩
  · exact (githubFileStatusMapping wGHOracles
      (PRFile.mk "b.txt" (some "a.txt") "renamed" 0 0 none) 7 "o/r" [] rfl).2.2.2.1
      rfl "a.txt" rfl (by decide)
  · exact (githubFileStatusMapping wGHOracles
      (PRFile.mk "b.txt" none "renamed" 0 0 none) 7 "o/r" [] rfl).2.2.2.2.1 rfl (Or.inl rfl)
  · exact (githubFileStatusMapping wGHOracles
      (PRFile.mk "c.txt" none "surprise" 0 0 none) 7 "o/r" [] rfl).2.2.2.2.2 (by decide)
      (by decide) (by decide) (by decide) (by decide) (by decide)

/-- C4: a per-file chunk of the BitBucket combined diff whose source and
target paths are both present and differ yields exactly three patches in
order — Delete at the old path and Insert at the new path, both with empty
diff and null objectDiff, then Modified at the new path carrying the parsed
content diff and the object diff. -/
theorem bitbucketRenameThreePatches (o : BBOracles) (srcHash destHash : String)
    (fdiff : IBBFileDiff) (d : List IHunk)
    (hparse : parseUnifiedDiff fdiff.unifiedTxt = .ok d)
    (ho : fdiff.oFname ≠ "") (ht : fdiff.tFname ≠ "")
    (hne : fdiff.oFname ≠ fdiff.tFname) (htxt : fdiff.unifiedTxt ≠ "") :
    parseBitBucketFileDiff o srcHash destHash fdiff
      = .ok [ IPatch.mk fdiff.oFname .delete 0 0 [] none,
              IPatch.mk fdiff.tFname .insert 0 0 [] none,
              IPatch.mk fdiff.tFname .modified 0 0 d
                (getObjectDiffBB o srcHash destHash fdiff.oFname fdiff.tFname .modified) ] := by
  simp [parseBitBucketFileDiff, hparse, ho, ht, hne, htxt]

/-- C4 witness: a one-line rename chunk produces the three patches. -/
theorem bitbucketRenameThreePatchesWitness :
    parseBitBucketFileDiff
        (BBOracles.mk (fun _ _ => .jnull) (fun _ _ => "")) "h1" "h2"
        (IBBFileDiff.mk "@@ -1 +1 @@\n-x\n+y" "a.txt" "b.txt")
      = .ok [ IPatch.mk "a.txt" .delete 0 0 [] none,
              IPatch.mk "b.txt" .insert 0 0 [] none,
              IPatch.mk "b.txt" .modified 0 0
                [IHunk.mk 1 1 1 1 [ILineDiff.mk .modified "x" "y"]]
                (getObjectDiffBB (BBOracles.mk (fun _ _ => .jnull) (fun _ _ => ""))
                  "h1" "h2" "a.txt" "b.txt" .modified) ] :=
  bitbucketRenameThreePatches _ _ _ _ _ rfl (by decide) (by decide) (by decide) (by decide)

/-- C8: the linked-PR extractor returns the empty sequence when there is no
parsable front matter or the front matter lacks the `fensak` key; it fails
with the malformed-front-matter `TypeError` when `fensak` is present but
`linked` is absent; and an entry without a `repo` field resolves against the
host repository and is reported with the empty string. -/
theorem linkedPRExtraction (lookup : String → Nat → PRInfo)
    (parseFM : String → Option FMAttrs) (owner repo : String) (prNum : Nat) :
    (extractLinkedPRs lookup parseFM owner repo prNum none = .ok []) ∧
    (∀ d, parseFM d = none →
      extractLinkedPRs lookup parseFM owner repo prNum (some d) = .ok []) ∧
    (∀ d attrs, parseFM d = some attrs → attrs.fensak = none →
      extractLinkedPRs lookup parseFM owner repo prNum (some d) = .ok []) ∧
    (∀ d attrs fk, d ≠ "" → parseFM d = some attrs → attrs.fensak = some fk →
      fk.linked = none →
      extractLinkedPRs lookup parseFM owner repo prNum (some d)
        = .error (.malformedFrontMatter
            ("[github] PR " ++ owner ++ "/" ++ repo ++ "#" ++ toString prNum
              ++ " has front matter, but it is not in the expected format"))) ∧
    (∀ d attrs fk ls, d ≠ "" → parseFM d = some attrs → attrs.fensak = some fk →
      fk.linked = some ls →
      extractLinkedPRs lookup parseFM owner repo prNum (some d)
        = .ok (ls.map (resolveLinkedPR lookup repo))) ∧
    (∀ l : FMLinkedPR, l.repo = none →
      resolveLinkedPR lookup repo l
        = ILinkedPR.mk "" l.prNum (lookup repo l.prNum).merged
            ((lookup repo l.prNum).state = "closed")) := by
  refine ⟨rfl, ?_, ?_, ?_, ?_, ?_⟩
  · intro d hfm
    by_cases hd : d = "" <;> simp [extractLinkedPRs, hd, hfm]
  · intro d attrs hfm hf
    by_cases hd : d = "" <;> simp [extractLinkedPRs, hd, hfm, hf]
  · intro d attrs fk hd hfm hf hl
    simp [extractLinkedPRs, hd, hfm, hf, hl]
  · intro d attrs fk ls hd hfm hf hl
    simp [extractLinkedPRs, hd, hfm, hf, hl]
  · intro l hl
    simp [resolveLinkedPR, hl]



/-- C8 witness: concrete front-matter oracles exercising the empty, the
malformed and the resolved branches, with a `repo`-less entry resolved in the
host repository. -/
theorem linkedPRExtractionWitness :
    (extractLinkedPRs wLookup wParseFM "fensak-test" "repo2" 9 (some "plain") = .ok []) ∧
    (extractLinkedPRs wLookup wParseFM "fensak-test" "repo2" 9 (some "bad")
      = .error (.malformedFrontMatter
          "[github] PR fensak-test/repo2#9 has front matter, but it is not in the expected format")) ∧
    (extractLinkedPRs wLookup wParseFM "fensak-test" "repo2" 9 (some "linked")
      = .ok ([FMLinkedPR.mk none 41].map (resolveLinkedPR wLookup "repo2"))) ∧
    (resolveLinkedPR wLookup "repo2" (FMLinkedPR.mk none 41)
      = ILinkedPR.mk "" 41 true ("closed" = "closed")) := by
  refine ⟨?_, ?_, ?_, ?_⟩
  · exact (linkedPRExtraction wLookup wParseFM "fensak-test" "repo2" 9).2.1 "plain" (by decide)
  · exact (linkedPRExtraction wLookup wParseFM "fensak-test" "repo2" 9).2.2.2.1 "bad"
      (FMAttrs.mk (some (FensakFM.mk none))) (FensakFM.mk none) (by decide) (by decide) rfl rfl
  · exact (linkedPRExtraction wLookup wParseFM "fensak-test" "repo2" 9).2.2.2.2.1 "linked"
      (FMAttrs.mk (some (FensakFM.mk (some [FMLinkedPR.mk none 41]))))
      (FensakFM.mk (some [FMLinkedPR.mk none 41])) [FMLinkedPR.mk none 41]
      (by decide) (by decide) rfl rfl
  · exact (linkedPRExtraction wLookup wParseFM "fensak-test" "repo2" 9).2.2.2.2.2
      (FMLinkedPR.mk none 41) rfl

lemma objectParserFromFilename_some {parsers : String → String → JTree}
    {fname : String} {parser : String → JTree}
    (h : objectParserFromFilename parsers fname = some parser) :
    ∃ ext, fileExtension fname = some ext ∧
      supportedObjectExtensions.contains ext = true ∧ parser = parsers ext := by
  unfold objectParserFromFilename at h
  cases hext : fileExtension fname with
  | none => rw [hext] at h; simp at h
  | some ext =>
    rw [hext] at h
    simp only [] at h
    by_cases hc : supportedObjectExtensions.contains ext = true
    · rw [if_pos hc] at h
      injection h with h2
      exact ⟨ext, rfl, hc, h2.symm⟩
    · rw [if_neg hc] at h
      cases h

lemma objectParserFromFilename_empty (parsers : String → String → JTree) :
    objectParserFromFilename parsers "" = none := rfl

lemma getObjectDiffGH_shape {o : GHOracles} {fname : String} {op : PatchOp}
    {od : IObjectDiff} (h : getObjectDiffGH o fname op = some od) :
    ∃ parser, objectParserFromFilename o.parsers fname = some parser ∧
      ((op = .insert ∧ od = IObjectDiff.mk .jnull (parser (o.headContents fname)) []) ∨
       (op = .delete ∧ od = IObjectDiff.mk (parser (o.baseContents fname)) .jnull []) ∨
       (op = .modified ∧ od = IObjectDiff.mk (parser (o.baseContents fname))
          (parser (o.headContents fname))
          (jdiff (parser (o.baseContents fname)) (parser (o.headContents fname))))) := by
  unfold getObjectDiffGH at h
  cases hp : objectParserFromFilename o.parsers fname with
  | none => simp [hp] at h
  | some parser =>
    refine ⟨parser, rfl, ?_⟩
    simp [hp] at h
    cases op with
    | unknown => simp at h
    | insert => exact Or.inl ⟨rfl, by simp at h; exact h.symm⟩
    | delete => exact Or.inr (Or.inl ⟨rfl, by simp at h; exact h.symm⟩)
    | modified => exact Or.inr (Or.inr ⟨rfl, by simp at h; exact h.symm⟩)

lemma getObjectDiffBB_shape {o : BBOracles} {prevHash curHash prevFpath curFpath : String}
    {op : PatchOp} {od : IObjectDiff}
    (h : getObjectDiffBB o prevHash curHash prevFpath curFpath op = some od) :
    ∃ parser, objectParserFromFilename o.parsers curFpath = some parser ∧
      ((op = .insert ∧ od = IObjectDiff.mk .jnull (parser (o.contentsAt curHash curFpath)) []) ∨
       (op = .delete ∧ od = IObjectDiff.mk (parser (o.contentsAt prevHash prevFpath)) .jnull []) ∨
       (op = .modified ∧ od = IObjectDiff.mk (parser (o.contentsAt prevHash prevFpath))
          (parser (o.contentsAt curHash curFpath))
          (jdiff (parser (o.contentsAt prevHash prevFpath))
            (parser (o.contentsAt curHash curFpath))))) := by
  unfold getObjectDiffBB at h
  cases hp : objectParserFromFilename o.parsers curFpath with
  | none => simp [hp] at h
  | some parser =>
    refine ⟨parser, rfl, ?_⟩
    simp [hp] at h
    cases op with
    | unknown => simp at h
    | insert => exact Or.inl ⟨rfl, by simp at h; exact h.symm⟩
    | delete => exact Or.inr (Or.inl ⟨rfl, by simp at h; exact h.symm⟩)
    | modified => exact Or.inr (Or.inr ⟨rfl, by simp at h; exact h.symm⟩)


lemma getObjectDiffGH_wellFormed {o : GHOracles} {fname : String} {op : PatchOp}
    {od : IObjectDiff} (h : getObjectDiffGH o fname op = some od) :
    objectDiffWellFormed o.parsers fname op od (o.baseContents fname) (o.headContents fname) := by
  obtain ⟨parser, hp, hcase⟩ := getObjectDiffGH_shape h
  obtain ⟨ext, hext, hc, hpe⟩ := objectParserFromFilename_some hp
  refine ⟨ext, hext, hc, parser, hp, ?_⟩
  rcases hcase with ⟨hop, hod⟩ | ⟨hop, hod⟩ | ⟨hop, hod⟩
  · exact Or.inl ⟨hop, by simp [hod]⟩
  · exact Or.inr (Or.inl ⟨hop, by simp [hod]⟩)
  · exact Or.inr (Or.inr ⟨hop, by simp [hod]⟩)

lemma getObjectDiffBB_wellFormed {o : BBOracles} {prevHash curHash prevFpath curFpath : String}
    {op : PatchOp} {od : IObjectDiff}
    (h : getObjectDiffBB o prevHash curHash prevFpath curFpath op = some od) :
    objectDiffWellFormed o.parsers curFpath op od
      (o.contentsAt prevHash prevFpath) (o.contentsAt curHash curFpath) := by
  obtain ⟨parser, hp, hcase⟩ := getObjectDiffBB_shape h
  obtain ⟨ext, hext, hc, hpe⟩ := objectParserFromFilename_some hp
  refine ⟨ext, hext, hc, parser, hp, ?_⟩
  rcases hcase with ⟨hop, hod⟩ | ⟨hop, hod⟩ | ⟨hop, hod⟩
  · exact Or.inl ⟨hop, by simp [hod]⟩
  · exact Or.inr (Or.inl ⟨hop, by simp [hod]⟩)
  · exact Or.inr (Or.inr ⟨hop, by simp [hod]⟩)

lemma except_error_bind {ε α β : Type} (e : ε) (f : α → Except ε β) :
    (Except.error (α := α) e >>= f) = Except.error e := rfl

lemma getObjectDiffBB_empty_cur (o : BBOracles) (prevHash curHash prevFpath : String)
    (op : PatchOp) : getObjectDiffBB o prevHash curHash prevFpath "" op = none := by
  unfold getObjectDiffBB
  rw [objectParserFromFilename_empty]

/-- C6: for every patch assembled by either adapter, a non-null `objectDiff`
arises only for a file path with a supported structured-configuration
extension and an op admitting parsing, and its shape follows the op: Insert
has null previous, the parsed head contents and empty diff; Delete has the
parsed base contents, null current and empty diff; Modified has both sides
parsed and the microdiff of the two as its diff. -/
theorem objectDiffInvariants :
    (∀ (o : GHOracles) (f : PRFile) (prNum : Nat) (repoName : String)
        (ps : List IPatch) (p : IPatch) (od : IObjectDiff),
      getPatchesFromPRFile o f prNum repoName = .ok ps → p ∈ ps →
      p.objectDiff = some od →
      objectDiffWellFormed o.parsers p.path p.op od
        (o.baseContents p.path) (o.headContents p.path)) ∧
    (∀ (o : BBOracles) (srcHash destHash : String) (fdiff : IBBFileDiff)
        (ps : List IPatch) (p : IPatch) (od : IObjectDiff),
      parseBitBucketFileDiff o srcHash destHash fdiff = .ok ps → p ∈ ps →
      p.objectDiff = some od →
      objectDiffWellFormed o.parsers p.path p.op od
        (o.contentsAt srcHash fdiff.oFname) (o.contentsAt destHash fdiff.tFname)) := by
  constructor
  · intro o f prNum repoName ps p od hok hmem hod
    unfold getPatchesFromPRFile at hok
    split at hok
    · -- renamed
      split at hok
      · cases hok
      · split at hok
        · cases hok
        · injection hok with hok
          subst hok
          simp only [List.mem_cons, List.mem_singleton, List.not_mem_nil, or_false] at hmem
          rcases hmem with hmem | hmem <;> subst hmem <;> cases hod
    all_goals (try (
      unfold ghSinglePatch at hok
      split at hok
      · cases hok
      · injection hok with hok
        subst hok
        simp only [List.mem_singleton] at hmem
        subst hmem
        exact getObjectDiffGH_wellFormed hod))
    · cases hok
  · intro o srcHash destHash fdiff ps p od hok hmem hod
    unfold parseBitBucketFileDiff at hok
    split at hok
    · cases hok
    · by_cases hre : fdiff.oFname ≠ "" ∧ fdiff.tFname ≠ "" ∧ fdiff.oFname ≠ fdiff.tFname
      · rw [if_pos hre] at hok
        injection hok with hok
        subst hok
        simp only [List.mem_cons, List.mem_singleton, List.not_mem_nil, or_false] at hmem
        rcases hmem with hmem | hmem | hmem
        · subst hmem; cases hod
        · subst hmem; cases hod
        · subst hmem
          by_cases htxt : fdiff.unifiedTxt ≠ ""
          · rw [if_pos htxt] at hod
            exact getObjectDiffBB_wellFormed hod
          · rw [if_neg htxt] at hod
            cases hod
      · rw [if_neg hre] at hok
        injection hok with hok
        subst hok
        simp only [List.mem_singleton] at hmem
        subst hmem
        by_cases ho : fdiff.oFname = ""
        · by_cases ht : fdiff.tFname = ""
          · simp only at hod
            rw [ht, getObjectDiffBB_empty_cur] at hod
            cases hod
          · have hadd : fdiff.oFname = "" ∧ fdiff.tFname ≠ "" := ⟨ho, ht⟩
            simp only [if_pos hadd] at hod ⊢
            exact getObjectDiffBB_wellFormed hod
        · by_cases ht : fdiff.tFname = ""
          · have hadd : ¬(fdiff.oFname = "" ∧ fdiff.tFname ≠ "") := by
              intro hc; exact ho hc.1
            have hdel : fdiff.oFname ≠ "" ∧ fdiff.tFname = "" := ⟨ho, ht⟩
            simp only [if_neg hadd, if_pos hdel] at hod
            rw [ht, getObjectDiffBB_empty_cur] at hod
            cases hod
          · have heq : fdiff.oFname = fdiff.tFname := by
              by_contra hc
              exact hre ⟨ho, ht, hc⟩
            have hadd : ¬(fdiff.oFname = "" ∧ fdiff.tFname ≠ "") := by
              intro hc; exact ho hc.1
            have hdel : ¬(fdiff.oFname ≠ "" ∧ fdiff.tFname = "") := by
              intro hc; exact ht hc.2
            simp only [if_neg hadd, if_neg hdel] at hod ⊢
            rw [heq] at hod ⊢
            exact getObjectDiffBB_wellFormed hod






/-- C6 witness: a modified `conf.json` through the GitHub adapter and an
inserted `conf.json` through the BitBucket adapter both produce well-formed
non-null object diffs. -/
theorem objectDiffInvariantsWitness :
    objectDiffWellFormed wC6GH.parsers
      (IPatch.mk "conf.json" .modified 2 2 [] (some wC6OD)).path
      (IPatch.mk "conf.json" .modified 2 2 [] (some wC6OD)).op wC6OD
      (wC6GH.baseContents "conf.json") (wC6GH.headContents "conf.json") ∧
    objectDiffWellFormed wC6BB.parsers
      (IPatch.mk "conf.json" .insert 0 0 [] (some wC6ODIns)).path
      (IPatch.mk "conf.json" .insert 0 0 [] (some wC6ODIns)).op wC6ODIns
      (wC6BB.contentsAt "p" "") (wC6BB.contentsAt "c" "conf.json") := by
  constructor
  · exact objectDiffInvariants.1 wC6GH (PRFile.mk "conf.json" none "modified" 2 2 none)
      1 "o/r" [IPatch.mk "conf.json" .modified 2 2 [] (some wC6OD)]
      (IPatch.mk "conf.json" .modified 2 2 [] (some wC6OD)) wC6OD
      rfl (by simp) rfl
  · exact objectDiffInvariants.2 wC6BB "p" "c" (IBBFileDiff.mk "" "" "conf.json")
      [IPatch.mk "conf.json" .insert 0 0 [] (some wC6ODIns)]
      (IPatch.mk "conf.json" .insert 0 0 [] (some wC6ODIns)) wC6ODIns
      rfl (by simp) rfl


lemma runLoop_threw {p : GuestProgram} {lm : RuleLogMode} {msg : String}
    {ist : IState} (it now : Nat) (res : IRuleResult) (fuel : Nat)
    (h : stepGuest p ist = .threw msg) :
    runLoop p lm (fuel + 1) ist it now res
      = some (RunOutcome.mk (.error (.ruleExecutionFailure msg)) now) := by
  simp [runLoop, h]

lemma runLoop_done {p : GuestProgram} {lm : RuleLogMode}
    {ist : IState} (it now : Nat) (res : IRuleResult) (fuel : Nat)
    (h : stepGuest p ist = .done) :
    runLoop p lm (fuel + 1) ist it now res = some (RunOutcome.mk (.ok res) now) := by
  simp [runLoop, h]

lemma runLoop_step {p : GuestProgram} {lm : RuleLogMode} {ist ist2 : IState}
    {eff : Option StepEffect} (res : IRuleResult) (n fuel : Nat)
    (h : stepGuest p ist = .more ist2 eff) (hn : n + 1 < 5050) :
    runLoop p lm (fuel + 1) ist (n % 101) (100 * (n / 101)) res
      = runLoop p lm fuel ist2 ((n + 1) % 101) (100 * ((n + 1) / 101))
          (applyEffectOpt lm res eff) := by
  by_cases hm : n % 101 = 100
  · have hmod : (n + 1) % 101 = 0 := by omega
    have hdiv : (n + 1) / 101 = n / 101 + 1 := by omega
    have hbound : n / 101 ≤ 48 := by omega
    rw [hmod, hdiv]
    simp only [runLoop, h]
    have hgt : n % 101 + 1 > maxStepIterationsBeforeSleep := by
      simp [maxStepIterationsBeforeSleep, hm]
    rw [if_pos hgt]
    have hto : ¬ (maxUDRRuntime ≤ 100 * (n / 101) + sleepBetweenStepIterations) := by
      simp only [maxUDRRuntime, sleepBetweenStepIterations]
      omega
    rw [if_neg hto]
    have : 100 * (n / 101) + sleepBetweenStepIterations = 100 * (n / 101 + 1) := by
      simp only [sleepBetweenStepIterations]
      omega
    rw [this]
  · have hmod : (n + 1) % 101 = n % 101 + 1 := by omega
    have hdiv : (n + 1) / 101 = n / 101 := by omega
    rw [hmod, hdiv]
    simp only [runLoop, h]
    have hgt : ¬ (n % 101 + 1 > maxStepIterationsBeforeSleep) := by
      simp only [maxStepIterationsBeforeSleep]
      omega
    rw [if_neg hgt]


lemma runLoop_benign (p : GuestProgram) (lm : RuleLogMode) :
    ∀ (pre rest : List GuestStmt) (n fuel : Nat) (res : IRuleResult),
      (∀ s ∈ pre, benignStmt p s) → n + pre.length < 5050 →
      runLoop p lm (fuel + pre.length) (.runMain (pre ++ rest)) (n % 101)
          (100 * (n / 101)) res
        = runLoop p lm fuel (.runMain rest) ((n + pre.length) % 101)
            (100 * ((n + pre.length) / 101)) (execEffects lm res pre) := by
  intro pre
  induction pre with
  | nil =>
    intro rest n fuel res hb hn
    simp [execEffects]
  | cons s pre ih =>
    intro rest n fuel res hb hn
    have hs := hb s (by simp)
    have hfe : fuel + (s :: pre).length = (fuel + pre.length) + 1 := by simp; omega
    rw [hfe]
    have hstep : stepGuest p (.runMain ((s :: pre) ++ rest))
        = .more (.runMain (pre ++ rest)) (stmtStepEffect s) := by
      cases s with
      | consoleCall m args => rfl
      | refName x =>
        have hx : (guestScope p).contains x = true := hs
        simp only [stepGuest, List.cons_append]
        rw [if_pos hx]
        rfl
      | ret v => exact absurd hs (by simp [benignStmt])
      | loopForever => exact absurd hs (by simp [benignStmt])
    rw [runLoop_step res n (fuel + pre.length) hstep (by simp at hn; omega)]
    have happ : applyEffectOpt lm res (stmtStepEffect s) = stmtEffectRes lm res s := by
      cases s <;> rfl
    rw [happ]
    have := ih rest (n + 1) fuel (stmtEffectRes lm res s) (fun t ht => hb t (by simp [ht]))
      (by simp at hn; omega)
    rw [this]
    have hlen : n + 1 + pre.length = n + (s :: pre).length := by simp; omega
    rw [hlen]
    rfl

lemma execEffects_capture (calls : List (ConsoleMethod × List JSValue)) :
    ∀ res, execEffects .capture res (calls.map consoleStmt)
      = IRuleResult.mk res.approve (res.logs ++ calls.map capturedEntry) := by
  induction calls with
  | nil => intro res; simp [execEffects]
  | cons c cs ih =>
    intro res
    have h1 : execEffects .capture res ((c :: cs).map consoleStmt)
        = execEffects .capture
            (IRuleResult.mk res.approve (res.logs ++ [capturedEntry c])) (cs.map consoleStmt) := rfl
    rw [h1, ih]
    simp

lemma execEffects_drop (pre : List GuestStmt) :
    ∀ res, execEffects .drop res pre = res := by
  induction pre with
  | nil => intro res; rfl
  | cons s pres ih =>
    intro res
    have h1 : execEffects .drop res (s :: pres) = execEffects .drop (stmtEffectRes .drop res s) pres := rfl
    have h2 : stmtEffectRes .drop res s = res := by cases s <;> rfl
    rw [h1, h2, ih]

lemma runLoop_spin (p : GuestProgram) (lm : RuleLogMode) (stmts : List GuestStmt)
    (res : IRuleResult) :
    ∀ (fuel n : Nat), n < 5050 → 5050 - n ≤ fuel →
      runLoop p lm fuel (.runMain (.loopForever :: stmts)) (n % 101) (100 * (n / 101)) res
        = some (RunOutcome.mk (.error (.timeout "user defined rule timed out")) 5000) := by
  intro fuel
  induction fuel with
  | zero => intro n hn hf; omega
  | succ f ih =>
    intro n hn hf
    by_cases hlast : n = 5049
    · subst hlast
      norm_num [runLoop, stepGuest, maxStepIterationsBeforeSleep, maxUDRRuntime,
        sleepBetweenStepIterations]
    · have hstep : stepGuest p (.runMain (.loopForever :: stmts))
          = .more (.runMain (.loopForever :: stmts)) none := rfl
      rw [runLoop_step res n f hstep (by omega)]
      have := ih (n + 1) (by omega) (by omega)
      simpa [applyEffectOpt] using this

lemma jsonBoolRoundtrip (b : Bool) : jsonParseBool (jsonStringifyBool b) = b := by
  cases b <;> rfl

lemma runRule_start (p : GuestProgram) (lm : RuleLogMode) (fuel : Nat) :
    runRule p lm fuel
      = runLoop p lm fuel (.runMain p.body) (0 % 101) (100 * (0 / 101))
          (IRuleResult.mk false []) := rfl

lemma runRule_ret_bool (p : GuestProgram) (lm : RuleLogMode) (b : Bool)
    (pre rest : List GuestStmt) (fuel : Nat)
    (hbody : p.body = pre ++ .ret (.vBool b) :: rest)
    (hpre : ∀ s ∈ pre, benignStmt p s)
    (hlen : pre.length + 3 ≤ 5050) (hfuel : pre.length + 3 ≤ fuel) :
    ∃ t, runRule p lm fuel
      = some (RunOutcome.mk
          (.ok (IRuleResult.mk b (execEffects lm (IRuleResult.mk false []) pre).logs)) t) := by
  obtain ⟨g, hg⟩ : ∃ g, fuel = (g + 3) + pre.length := ⟨fuel - 3 - pre.length, by omega⟩
  subst hg
  rw [runRule_start, hbody,
    runLoop_benign p lm pre (.ret (.vBool b) :: rest) 0 (g + 3) _ hpre (by omega)]
  have hstep1 : stepGuest p (.runMain (.ret (.vBool b) :: rest))
      = .more (.returned (.vBool b)) none := rfl
  have hz : (0 : Nat) + pre.length = pre.length := by omega
  rw [hz]
  rw [show g + 3 = (g + 2) + 1 from by omega,
    runLoop_step _ pre.length (g + 2) hstep1 (by omega)]
  have hstep2 : stepGuest p (.returned (.vBool b))
      = .more .harnessDone (some (.setOutput (jsonStringifyBool b))) := rfl
  rw [show g + 2 = (g + 1) + 1 from by omega,
    runLoop_step _ (pre.length + 1) (g + 1) hstep2 (by omega)]
  have hstep3 : stepGuest p (.harnessDone) = .done := rfl
  rw [runLoop_done _ _ _ g hstep3]
  have hres : applyEffectOpt lm
      (applyEffectOpt lm (execEffects lm (IRuleResult.mk false []) pre) none)
      (some (.setOutput (jsonStringifyBool b)))
      = IRuleResult.mk b (execEffects lm (IRuleResult.mk false []) pre).logs := by
    simp [applyEffectOpt, applyEffect, jsonBoolRoundtrip]
  rw [hres]
  exact ⟨_, rfl⟩

/-- C1: a rule body that references a name outside the guest scope — which
holds exactly the host-bridge names `getInput`, `setOutput` and `console`,
the rule-declared `main` and its parameters, and none of the network,
filesystem, environment, process, timer or randomness primitives — makes
`runRule` reject with a guest-level `RuleExecutionFailure` whose message is
the JS `ReferenceError` text containing `is not defined`; the host loop
catches the guest throw and rejects instead of crashing. -/
theorem sandboxIsolation (p : GuestProgram) (lm : RuleLogMode) (x : String)
    (pre rest : List GuestStmt) (fuel : Nat)
    (hbody : p.body = pre ++ .refName x :: rest)
    (hpre : ∀ s ∈ pre, benignStmt p s)
    (hx : (guestScope p).contains x = false)
    (hlen : pre.length + 1 ≤ 5050)
    (hfuel : pre.length + 1 ≤ fuel) :
    ∃ t, runRule p lm fuel
        = some (RunOutcome.mk (.error (.ruleExecutionFailure (x ++ " is not defined"))) t) ∧
      strContains (x ++ " is not defined") "is not defined" := by
  obtain ⟨g, hg⟩ : ∃ g, fuel = (g + 1) + pre.length := ⟨fuel - 1 - pre.length, by omega⟩
  subst hg
  rw [runRule_start, hbody,
    runLoop_benign p lm pre (.refName x :: rest) 0 (g + 1) _ hpre (by omega)]
  have hstep : stepGuest p (.runMain (.refName x :: rest))
      = .threw (x ++ " is not defined") := by
    simp only [stepGuest]
    rw [if_neg (by simpa using hx)]
  rw [runLoop_threw _ _ _ g hstep]
  refine ⟨_, rfl, ⟨x ++ " ", "", ?_⟩⟩
  rw [String.append_empty, String.append_assoc]
  rfl

/-- C1 witness: a rule referencing `XMLHttpRequest` rejects with the
`ReferenceError`-shaped message of the interpreter test. -/
theorem sandboxIsolationWitness :
    ∃ t, runRule (GuestProgram.mk ["inp"] [.refName "XMLHttpRequest"]) .drop 10
        = some (RunOutcome.mk
            (.error (.ruleExecutionFailure ("XMLHttpRequest" ++ " is not defined"))) t) ∧
      strContains ("XMLHttpRequest" ++ " is not defined") "is not defined" :=
  sandboxIsolation (GuestProgram.mk ["inp"] [.refName "XMLHttpRequest"]) .drop
    "XMLHttpRequest" [] [] 10 rfl (by simp) (by decide) (by decide) (by decide)

/-- C2: a rule body that reaches an unbounded loop never settles on its own;
the watchdog timer fires during a host sleep at the first yield boundary at
or after `MAX_RUNTIME_MS`, so `runRule` rejects with the Timeout error
`user defined rule timed out` at model time 5000 ms — within
`MAX_RUNTIME_MS` plus one scheduling quantum; the pending sleep is cancelled
so the step loop never resumes, and the rejection carries no record, so all
log entries captured before the timeout are discarded. -/
theorem timeoutTermination (p : GuestProgram) (lm : RuleLogMode)
    (pre rest : List GuestStmt) (fuel : Nat)
    (hbody : p.body = pre ++ .loopForever :: rest)
    (hpre : ∀ s ∈ pre, benignStmt p s)
    (hlen : pre.length < 5050)
    (hfuel : 5050 ≤ fuel) :
    runRule p lm fuel
      = some (RunOutcome.mk (.error (.timeout "user defined rule timed out")) 5000) ∧
    5000 ≤ maxUDRRuntime + sleepBetweenStepIterations := by
  obtain ⟨g, hg⟩ : ∃ g, fuel = g + pre.length := ⟨fuel - pre.length, by omega⟩
  subst hg
  rw [runRule_start, hbody,
    runLoop_benign p lm pre (.loopForever :: rest) 0 g _ hpre (by omega)]
  have hz : (0 : Nat) + pre.length = pre.length := by omega
  rw [hz]
  refine ⟨runLoop_spin p lm rest _ g pre.length hlen (by omega), ?_⟩
  norm_num [maxUDRRuntime, sleepBetweenStepIterations]

/-- C2 witness: the unbounded-loop rule of the interpreter test times out at
5000 ms with the message `user defined rule timed out`. -/
theorem timeoutTerminationWitness :
    runRule (GuestProgram.mk ["inp", "metadata"] [.loopForever]) .drop 6000
      = some (RunOutcome.mk (.error (.timeout "user defined rule timed out")) 5000) ∧
    5000 ≤ maxUDRRuntime + sleepBetweenStepIterations :=
  timeoutTermination (GuestProgram.mk ["inp", "metadata"] [.loopForever]) .drop
    [] [] 6000 rfl (by simp) (by decide) (by decide)

/-- C3: when `main` returns a non-boolean, the harness throw surfaces as a
`RuleExecutionFailure` whose message contains `main function must return
boolean`, and no record is produced; when `main` returns a boolean, the
harness serializes it through `setOutput` and `runRule` fulfills with
`approve` equal to that boolean. -/
theorem nonBooleanResult (p : GuestProgram) (lm : RuleLogMode) (v : JSValue)
    (pre rest : List GuestStmt) (fuel : Nat)
    (hbody : p.body = pre ++ .ret v :: rest)
    (hpre : ∀ s ∈ pre, benignStmt p s)
    (hlen : pre.length + 3 ≤ 5050)
    (hfuel : pre.length + 3 ≤ fuel) :
    ((∀ b, v ≠ .vBool b) →
      ∃ t, runRule p lm fuel
          = some (RunOutcome.mk (.error (.ruleExecutionFailure
              ("main function must return boolean (returned " ++ jsToString v ++ ")"))) t) ∧
        strContains ("main function must return boolean (returned " ++ jsToString v ++ ")")
          "main function must return boolean") ∧
    (∀ b, v = .vBool b →
      ∃ t, runRule p lm fuel
        = some (RunOutcome.mk
            (.ok (IRuleResult.mk b (execEffects lm (IRuleResult.mk false []) pre).logs)) t)) := by
  constructor
  · intro hv
    obtain ⟨g, hg⟩ : ∃ g, fuel = (g + 2) + pre.length := ⟨fuel - 2 - pre.length, by omega⟩
    subst hg
    rw [runRule_start, hbody,
      runLoop_benign p lm pre (.ret v :: rest) 0 (g + 2) _ hpre (by omega)]
    have hz : (0 : Nat) + pre.length = pre.length := by omega
    rw [hz]
    have hstep1 : stepGuest p (.runMain (.ret v :: rest)) = .more (.returned v) none := rfl
    rw [show g + 2 = (g + 1) + 1 from by omega,
      runLoop_step _ pre.length (g + 1) hstep1 (by omega)]
    have hstep2 : stepGuest p (.returned v)
        = .threw ("main function must return boolean (returned " ++ jsToString v ++ ")") := by
      cases v with
      | vBool b2 => exact absurd rfl (hv b2)
      | vNum n => rfl
      | vStr s => rfl
      | vUndefined => rfl
      | vNull => rfl
    rw [runLoop_threw _ _ _ g hstep2]
    refine ⟨_, rfl, ⟨"", " (returned " ++ jsToString v ++ ")", ?_⟩⟩
    rw [String.append_assoc]
    rfl
  · intro b hb
    subst hb
    exact runRule_ret_bool p lm b pre rest fuel hbody hpre hlen hfuel

/-- C3 witness: a rule returning the string `hello world` rejects with the
non-boolean message, and a rule returning `true` fulfills with approve
`true`. -/
theorem nonBooleanResultWitness :
    (∃ t, runRule (GuestProgram.mk ["inp", "metadata"] [.ret (.vStr "hello world")]) .drop 10
        = some (RunOutcome.mk (.error (.ruleExecutionFailure
            ("main function must return boolean (returned "
              ++ jsToString (.vStr "hello world") ++ ")"))) t) ∧
      strContains ("main function must return boolean (returned "
          ++ jsToString (.vStr "hello world") ++ ")")
        "main function must return boolean") ∧
    (∃ t, runRule (GuestProgram.mk ["inp", "metadata"] [.ret (.vBool true)]) .drop 10
        = some (RunOutcome.mk (.ok (IRuleResult.mk true
            (execEffects .drop (IRuleResult.mk false []) []).logs)) t)) := by
  constructor
  · exact (nonBooleanResult (GuestProgram.mk ["inp", "metadata"] [.ret (.vStr "hello world")])
      .drop (.vStr "hello world") [] [] 10 rfl (by simp) (by decide) (by decide)).1
      (by intro b h; cases h)
  · exact (nonBooleanResult (GuestProgram.mk ["inp", "metadata"] [.ret (.vBool true)])
      .drop (.vBool true) [] [] 10 rfl (by simp) (by decide) (by decide)).2 true rfl

/-- C9: with logMode Capture, every guest console call appends exactly one
log entry in call order, whose `msg` is the variadic arguments coerced to
strings and joined by single spaces and whose level matches the guest method
(`log` and `info` record Info, `debug` Debug, `warn` Warn, `error` Error);
with the default mode Drop, log calls are no-ops and the returned `logs` is
empty. -/
theorem loggingCaptureOrder (p : GuestProgram)
    (calls : List (ConsoleMethod × List JSValue)) (b : Bool)
    (rest : List GuestStmt) (fuel : Nat)
    (hbody : p.body = calls.map consoleStmt ++ .ret (.vBool b) :: rest)
    (hlen : calls.length + 3 ≤ 5050)
    (hfuel : calls.length + 3 ≤ fuel) :
    (∃ t, runRule p .capture fuel
        = some (RunOutcome.mk (.ok (IRuleResult.mk b (calls.map capturedEntry))) t)) ∧
    (∃ t, runRule p .drop fuel
        = some (RunOutcome.mk (.ok (IRuleResult.mk b [])) t)) := by
  have hb : ∀ s ∈ calls.map consoleStmt, benignStmt p s := by
    intro s hs
    obtain ⟨c, _, hc⟩ := List.mem_map.mp hs
    subst hc
    exact trivial
  have hl : (calls.map consoleStmt).length + 3 ≤ 5050 := by simpa using hlen
  have hf : (calls.map consoleStmt).length + 3 ≤ fuel := by simpa using hfuel
  constructor
  · have := runRule_ret_bool p .capture b (calls.map consoleStmt) rest fuel hbody hb hl hf
    rwa [execEffects_capture calls (IRuleResult.mk false [])] at this
  · have := runRule_ret_bool p .drop b (calls.map consoleStmt) rest fuel hbody hb hl hf
    rwa [execEffects_drop (calls.map consoleStmt) (IRuleResult.mk false [])] at this

/-- C9 witness: the `console.log("hello", "world")` rule of the interpreter
test captures one Info entry with msg `hello world` in Capture mode and
nothing in Drop mode. -/
theorem loggingCaptureOrderWitness :
    (∃ t, runRule (GuestProgram.mk ["inp", "metadata"]
          [.consoleCall .log [.vStr "hello", .vStr "world"], .ret (.vBool false)]) .capture 10
        = some (RunOutcome.mk (.ok (IRuleResult.mk false
            ([(ConsoleMethod.log, [JSValue.vStr "hello", JSValue.vStr "world"])].map capturedEntry))) t)) ∧
    (∃ t, runRule (GuestProgram.mk ["inp", "metadata"]
          [.consoleCall .log [.vStr "hello", .vStr "world"], .ret (.vBool false)]) .drop 10
        = some (RunOutcome.mk (.ok (IRuleResult.mk false [])) t)) :=
  loggingCaptureOrder (GuestProgram.mk ["inp", "metadata"]
      [.consoleCall .log [.vStr "hello", .vStr "world"], .ret (.vBool false)])
    [(ConsoleMethod.log, [JSValue.vStr "hello", JSValue.vStr "world"])] false [] 10
    rfl (by decide) (by decide)

/-- C10: a legacy rule whose `main` is declared with a single parameter still
settles successfully: the harness always invokes `main(inp.patches,
inp.metadata)` with both arguments, the guest function (per ECMAScript call
semantics) binds its declared parameters and ignores the surplus argument,
no arity check exists anywhere in `runRule`, and the fulfilled `approve`
equals the boolean `main` returned. -/
theorem legacyOneArgMain (params : List String) (pre rest : List GuestStmt)
    (b : Bool) (lm : RuleLogMode) (fuel : Nat)
    (hparams : params.length = 1)
    (hpre : ∀ s ∈ pre, benignStmt (GuestProgram.mk params (pre ++ .ret (.vBool b) :: rest)) s)
    (hlen : pre.length + 3 ≤ 5050)
    (hfuel : pre.length + 3 ≤ fuel) :
    ∃ t, runRule (GuestProgram.mk params (pre ++ .ret (.vBool b) :: rest)) lm fuel
      = some (RunOutcome.mk
          (.ok (IRuleResult.mk b
            (execEffects lm (IRuleResult.mk false []) pre).logs)) t) :=
  runRule_ret_bool (GuestProgram.mk params (pre ++ .ret (.vBool b) :: rest)) lm b
    pre rest fuel rfl hpre hlen hfuel

/-- C10 witness: the one-parameter sanity rule of the interpreter test
(`function main(inp)`) settles with approve `true`. -/
theorem legacyOneArgMainWitness :
    ∃ t, runRule (GuestProgram.mk ["inp"] ([] ++ GuestStmt.ret (.vBool true) :: [])) .drop 10
      = some (RunOutcome.mk
          (.ok (IRuleResult.mk true
            (execEffects .drop (IRuleResult.mk false []) []).logs)) t) :=
  legacyOneArgMain ["inp"] [] [] true .drop 10 rfl (by simp) (by decide) (by decide)
